import Mathlib

/-!
Verification development for the resume-analysis core of the repository
(`src/Hack/analyze.py`).  The Python functions `_clean_extracted_text`,
`_count_words_robust` and `analyze_resume` are shallowly embedded below as
executable Lean functions over `List Char` (Python `str`), `Nat`
(non-negative Python ints) and `ℚ` (Python float arithmetic; on every value
reachable in this program the float computations are exact, so the rational
model agrees with the code — see the `score` lemmas).  The extraction layer
(`extract_text_from_pdf` and friends) performs I/O against external engines
and is not needed by any property below, so it is not embedded.
-/

namespace ResumeAnalyzer

/-- Whitespace set used by Python `str.strip()` and the regex class `\s`
(Unicode whitespace). -/
def isPySpace (c : Char) : Bool :=
  decide (c.toNat ∈ ([0x20, 0x9, 0xa, 0xd, 0xb, 0xc, 0x1c, 0x1d, 0x1e, 0x1f,
      0x85, 0xa0, 0x1680, 0x2028, 0x2029, 0x202f, 0x205f, 0x3000] : List Nat) ∨
    (0x2000 ≤ c.toNat ∧ c.toNat ≤ 0x200a))

/-- Character class of the regex `[\t ]` in `_clean_extracted_text`. -/
def isTabNbsp (c : Char) : Bool :=
  decide (c.toNat = 0x9 ∨ c.toNat = 0xa0)

/-- Python `str.lower()` restricted to ASCII and Latin-1 letters (the only
characters the analyzer's vocabularies and bullet glyphs can meet). -/
def pyToLower (c : Char) : Char :=
  if 0x41 ≤ c.toNat ∧ c.toNat ≤ 0x5a then Char.ofNat (c.toNat + 32)
  else if 0xc0 ≤ c.toNat ∧ c.toNat ≤ 0xde ∧ c.toNat ≠ 0xd7 then Char.ofNat (c.toNat + 32)
  else c

/-- Test whether `pat` is a leading segment of `l` (Python substring search
helper). -/
def leadsWith : List Char → List Char → Bool
  | [], _ => true
  | _ :: _, [] => false
  | a :: as, b :: bs => a == b && leadsWith as bs

/-- Python `pat in s` substring containment. -/
def containsSub (pat : List Char) : List Char → Bool
  | [] => leadsWith pat []
  | c :: rest => leadsWith pat (c :: rest) || containsSub pat rest

/-- Combined effect of `raw_text.replace("\r\n", "\n").replace("\r", "\n")`
(lines 129 of analyze.py): every CRLF pair becomes one LF, every remaining CR
becomes LF. -/
def normNewlines : List Char → List Char
  | [] => []
  | [c] => [if c = '\r' then '\n' else c]
  | c :: d :: rest =>
    if c = '\r' ∧ d = '\n' then '\n' :: normNewlines rest
    else (if c = '\r' then '\n' else c) :: normNewlines (d :: rest)

/-- Python `text.split("\n")`. -/
def splitOnNl : List Char → List (List Char)
  | [] => [[]]
  | c :: rest =>
    if c = '\n' then [] :: splitOnNl rest
    else
      match splitOnNl rest with
      | [] => [[c]]
      | l :: ls => (c :: l) :: ls

/-- Python `str.strip()`: remove leading and trailing whitespace. -/
def pyStrip (l : List Char) : List Char :=
  ((l.dropWhile isPySpace).reverse.dropWhile isPySpace).reverse

/-- State machine for `re.sub(cls+, r, s)`: each maximal run of characters
satisfying `q` is replaced by the single character `r`.  The flag records
whether the previous character belonged to a run being replaced. -/
def collapseAux (q : Char → Bool) (r : Char) : Bool → List Char → List Char
  | _, [] => []
  | b, c :: rest =>
    if q c then
      if b then collapseAux q r true rest
      else r :: collapseAux q r true rest
    else c :: collapseAux q r false rest

/-- Replace every maximal `q`-run by the single character `r`
(Python `re.sub`). -/
def collapseRuns (q : Char → Bool) (r : Char) (l : List Char) : List Char :=
  collapseAux q r false l

/-- Stripped lines of the document: analyze.py line 130,
`[ln.strip() for ln in text.split("\n")]` after newline normalization. -/
def strippedLines (raw : List Char) : List (List Char) :=
  (splitOnNl (normNewlines raw)).map pyStrip

/-- The header/footer filter of `_clean_extracted_text` (lines 133-141): keep
each non-empty stripped line unless its exact-content frequency is ≥ 6 and its
length is ≤ 80.  The Python `Counter` is built over the non-empty stripped
lines; for a non-empty line that count equals the count over all stripped
lines, which is what `List.count` computes here. -/
def keptLines (raw : List Char) : List (List Char) :=
  (strippedLines raw).filter
    (fun ln => decide (ln ≠ [] ∧ ¬(6 ≤ (strippedLines raw).count ln ∧ ln.length ≤ 80)))

/-- Embedding of `_clean_extracted_text` (analyze.py lines 121-146). -/
def _clean_extracted_text (raw : List Char) : List Char :=
  if raw.isEmpty then []
  else
    pyStrip (collapseRuns isPySpace ' '
      (collapseRuns isTabNbsp ' ' (List.intercalate ['\n'] (keptLines raw))))

/-- Character class of the regex `[A-Za-z0-9À-ÖØ-öø-ÿ]` in
`_count_words_robust`. -/
def isWordChar (c : Char) : Bool :=
  decide ((0x41 ≤ c.toNat ∧ c.toNat ≤ 0x5a) ∨ (0x61 ≤ c.toNat ∧ c.toNat ≤ 0x7a) ∨
    (0x30 ≤ c.toNat ∧ c.toNat ≤ 0x39) ∨ (0xc0 ≤ c.toNat ∧ c.toNat ≤ 0xd6) ∨
    (0xd8 ≤ c.toNat ∧ c.toNat ≤ 0xf6) ∨ (0xf8 ≤ c.toNat ∧ c.toNat ≤ 0xff))

/-- Scanner for `re.findall(r"[\w]+(?:[-'][\w]+)*", text)` over the word-char
class above: counts maximal tokens, where a hyphen or apostrophe continues the
current token only when followed by a word character.  The flag records
whether the previous character was a word character inside the current
token. -/
def countTokensAux : Bool → List Char → Nat
  | _, [] => 0
  | b, [c] => if isWordChar c then (if b then 0 else 1) else 0
  | b, c :: d :: rest =>
    if isWordChar c then
      (if b then 0 else 1) + countTokensAux true (d :: rest)
    else if b && (c == '-' || c == '\'') && isWordChar d then
      countTokensAux true rest
    else
      countTokensAux false (d :: rest)

/-- Embedding of `_count_words_robust` (analyze.py lines 149-158). -/
def _count_words_robust (text : List Char) : Nat :=
  countTokensAux false text

/-- Keyword vocabulary (analyze.py lines 177-181); the literal list has 22
entries. -/
def keywords : List String :=
  ["python", "java", "javascript", "typescript", "sql", "react", "node", "aws", "azure",
   "gcp", "docker", "kubernetes", "graphql", "rest", "data", "machine learning", "nlp", "git",
   "pandas", "numpy", "django", "flask"]

/-- Action-verb vocabulary (analyze.py lines 182-186); 20 entries. -/
def action_verbs : List String :=
  ["led", "implemented", "built", "created", "designed", "developed", "optimized", "improved",
   "launched", "delivered", "automated", "refactored", "migrated", "collaborated", "mentored",
   "analyzed", "deployed", "configured", "debugged", "resolved"]

/-- Detector signals computed by `analyze_resume` before scoring. -/
structure Signals where
  word_count : Nat
  education : Bool
  experience : Bool
  skills : Bool
  projects : Bool
  bullets : Bool
  keyword_hits : Nat
  action_hits : Nat
deriving DecidableEq

/-- Section and vocabulary detection of `analyze_resume`
(analyze.py lines 163-189). -/
def signalsOf (text : List Char) : Signals :=
  let cleaned := _clean_extracted_text text
  let normalized := cleaned.map pyToLower
  { word_count := _count_words_robust cleaned
    education := (["education", "bachelor", "master", "university", "degree"].map
      String.data).any (fun k => containsSub k normalized)
    experience := (["experience", "work", "internship", "employment"].map
      String.data).any (fun k => containsSub k normalized)
    skills := containsSub "skills".data normalized
    projects := containsSub "projects".data normalized || containsSub "project".data normalized
    bullets := (["•", "- ", " – ", "— "].map String.data).any
      (fun g => containsSub g normalized)
    keyword_hits := keywords.countP (fun k => containsSub k.data normalized)
    action_hits := action_verbs.countP
      (fun v => containsSub (' ' :: (v.data ++ [' '])) (' ' :: (normalized ++ [' ']))) }

/-- Section names counted into the structure sub-score
(analyze.py line 196). -/
def structure_components : List String := ["education", "experience", "skills", "projects"]

/-- Items of the `sections_present` dict in its Python insertion order
(analyze.py lines 168-174). -/
def sectionsItems (s : Signals) : List (String × Bool) :=
  [("education", s.education), ("experience", s.experience), ("skills", s.skills),
   ("projects", s.projects), ("bullets", s.bullets)]

/-- `structure_hits` (analyze.py line 197): how many of the four structural
sections are present; the `bullets` entry fails the membership test. -/
def structureHits (s : Signals) : Nat :=
  ((sectionsItems s).filter
    (fun kv => decide (kv.1 ∈ structure_components) && kv.2)).length

/-- `keywords_score` (analyze.py line 194). -/
def keywords_score (keyword_hits : Nat) : ℚ :=
  min 1 ((keyword_hits : ℚ) / 10) * 40

/-- `structure_score` (analyze.py line 198). -/
def structure_score (structure_hits : Nat) : ℚ :=
  ((structure_hits : ℚ) / 4) * 20

/-- `action_score` (analyze.py line 201). -/
def action_score (action_hits : Nat) : ℚ :=
  ((min action_hits 10 : Nat) : ℚ) / 10 * 20

/-- `word_count_score` (analyze.py lines 203-208). -/
def word_count_score (word_count : Nat) : ℚ :=
  if 350 ≤ word_count ∧ word_count ≤ 600 then 20
  else if 250 ≤ word_count ∧ word_count ≤ 800 then 10
  else 0

/-- Pre-clamp total: `int(round(...))` of analyze.py line 210.  The argument
is always an exact integer (proved below), so the tie-breaking convention of
`round` is irrelevant. -/
def total_pre (s : Signals) : ℤ :=
  round (keywords_score s.keyword_hits + structure_score (structureHits s) +
    action_score s.action_hits + word_count_score s.word_count)

/-- The `details` dict returned by `analyze_resume`
(analyze.py lines 213-222). -/
structure Details where
  keyword_hits : Nat
  action_verbs : Nat
  word_count : Nat
  sections_present : Nat
  score_keywords_40 : ℤ
  score_structure_20 : ℤ
  score_action_verbs_20 : ℤ
  score_word_count_20 : ℤ
deriving DecidableEq

/-- Construction of the `details` dict from the signals. -/
def detailsOf (s : Signals) : Details :=
  { keyword_hits := s.keyword_hits
    action_verbs := s.action_hits
    word_count := s.word_count
    sections_present := structureHits s
    score_keywords_40 := round (keywords_score s.keyword_hits)
    score_structure_20 := round (structure_score (structureHits s))
    score_action_verbs_20 := round (action_score s.action_hits)
    score_word_count_20 := round (word_count_score s.word_count) }

/-- Suggestion text of analyze.py line 229. -/
def kw_suggestion : String :=
  "Skills and keywords: Add more role-specific terms (e.g., Python, SQL, React). Recruiters and ATS look for these exact keywords."

/-- Suggestion text of analyze.py line 238 (the f-string, with the section
name spliced in). -/
def structure_suggestion (sec : String) : String :=
  "Structure: Add a " ++ sec ++ " section with a clear heading so ATS can identify it."

/-- Suggestion text of analyze.py line 241. -/
def action_suggestion : String :=
  "Impact language: Start bullets with strong action verbs (Led, Implemented, Built) and quantify results (e.g., 20% faster)."

/-- Suggestion text of analyze.py line 244. -/
def length_suggestion : String :=
  "Length: Aim for ~350–600 words (roughly 1 page early-career). Keep bullets concise and remove fluff."

/-- Suggestion text of analyze.py line 247. -/
def bullets_suggestion : String :=
  "Readability: Use bullet points instead of paragraphs so both humans and ATS can parse achievements."

/-- The full suggestion list built by analyze.py lines 225-247, before the
`[:3]` cap of line 249. -/
def suggestionsFull (s : Signals) : List String :=
  (if s.keyword_hits < 6 then [kw_suggestion] else []) ++
  (if s.education then [] else [structure_suggestion "Education"]) ++
  (if s.experience then [] else [structure_suggestion "Experience"]) ++
  (if s.skills then [] else [structure_suggestion "Skills"]) ++
  (if s.projects then [] else [structure_suggestion "Projects"]) ++
  (if s.action_hits < 5 then [action_suggestion] else []) ++
  (if 350 ≤ s.word_count ∧ s.word_count ≤ 600 then [] else [length_suggestion]) ++
  (if s.bullets then [] else [bullets_suggestion])

/-- Embedding of `analyze_resume` (analyze.py lines 161-249): the returned
triple `(score, details, suggestions)` with the defensive clamp of line 249
and the cap to the first three suggestions. -/
def analyze_resume (text : List Char) : ℤ × Details × List String :=
  let s := signalsOf text
  (max 0 (min 100 (total_pre s)), detailsOf s, (suggestionsFull s).take 3)

/-! Bridge lemmas: each rational sub-score is an exact integer, which lets
every later statement about `round`, the total and the clamp be settled over
`ℕ` and `ℤ`. -/

/-- Integer value of the word-count sub-score. -/
def wcNat (w : Nat) : Nat :=
  if 350 ≤ w ∧ w ≤ 600 then 20 else if 250 ≤ w ∧ w ≤ 800 then 10 else 0

theorem keywords_score_eq (h : ℕ) :
    keywords_score h = ((4 * min h 10 : ℕ) : ℚ) := by
  unfold keywords_score
  rcases le_total h 10 with hle | hge
  · have h1 : ((h : ℚ) / 10) ≤ 1 := by
      rw [div_le_one (by norm_num : (0:ℚ) < 10)]
      exact_mod_cast hle
    rw [min_eq_right h1, min_eq_left hle]
    push_cast
    ring
  · have h1 : (1 : ℚ) ≤ (h : ℚ) / 10 := by
      rw [le_div_iff₀ (by norm_num : (0:ℚ) < 10)]
      have : (10 : ℚ) ≤ (h : ℚ) := by exact_mod_cast hge
      linarith
    rw [min_eq_left h1, min_eq_right hge]
    norm_num

theorem structure_score_eq (h : ℕ) :
    structure_score h = ((5 * h : ℕ) : ℚ) := by
  unfold structure_score
  push_cast
  ring

theorem action_score_eq (a : ℕ) :
    action_score a = ((2 * min a 10 : ℕ) : ℚ) := by
  unfold action_score
  push_cast
  ring

theorem word_count_score_eq (w : ℕ) :
    word_count_score w = ((wcNat w : ℕ) : ℚ) := by
  unfold word_count_score wcNat
  split_ifs <;> norm_num

theorem structureHits_eq (s : Signals) :
    structureHits s = (if s.education then 1 else 0) + (if s.experience then 1 else 0) +
      (if s.skills then 1 else 0) + (if s.projects then 1 else 0) := by
  obtain ⟨wc, e, x, k, p, b, kh, ah⟩ := s
  cases e <;> cases x <;> cases k <;> cases p <;> rfl

theorem structureHits_le_four (s : Signals) : structureHits s ≤ 4 := by
  rw [structureHits_eq]
  split_ifs <;> norm_num

theorem wcNat_le_twenty (w : ℕ) : wcNat w ≤ 20 := by
  unfold wcNat
  split_ifs <;> norm_num

theorem total_pre_eq (s : Signals) :
    total_pre s = ((4 * min s.keyword_hits 10 + 5 * structureHits s +
      2 * min s.action_hits 10 + wcNat s.word_count : ℕ) : ℤ) := by
  unfold total_pre
  rw [keywords_score_eq, structure_score_eq, action_score_eq, word_count_score_eq,
    ← Nat.cast_add, ← Nat.cast_add, ← Nat.cast_add, round_natCast]

theorem total_pre_nonneg (s : Signals) : 0 ≤ total_pre s := by
  rw [total_pre_eq]
  exact_mod_cast Nat.zero_le _

theorem total_pre_le_hundred (s : Signals) : total_pre s ≤ 100 := by
  rw [total_pre_eq]
  have h1 : min s.keyword_hits 10 ≤ 10 := min_le_right _ _
  have h2 : structureHits s ≤ 4 := structureHits_le_four s
  have h3 : min s.action_hits 10 ≤ 10 := min_le_right _ _
  have h4 : wcNat s.word_count ≤ 20 := wcNat_le_twenty s.word_count
  have : 4 * min s.keyword_hits 10 + 5 * structureHits s +
      2 * min s.action_hits 10 + wcNat s.word_count ≤ 100 := by omega
  exact_mod_cast this

theorem detail_kw_field (s : Signals) :
    (detailsOf s).score_keywords_40 = ((4 * min s.keyword_hits 10 : ℕ) : ℤ) := by
  show round (keywords_score s.keyword_hits) = _
  rw [keywords_score_eq, round_natCast]

theorem detail_structure_field (s : Signals) :
    (detailsOf s).score_structure_20 = ((5 * structureHits s : ℕ) : ℤ) := by
  show round (structure_score (structureHits s)) = _
  rw [structure_score_eq, round_natCast]

theorem detail_action_field (s : Signals) :
    (detailsOf s).score_action_verbs_20 = ((2 * min s.action_hits 10 : ℕ) : ℤ) := by
  show round (action_score s.action_hits) = _
  rw [action_score_eq, round_natCast]

theorem detail_wc_field (s : Signals) :
    (detailsOf s).score_word_count_20 = ((wcNat s.word_count : ℕ) : ℤ) := by
  show round (word_count_score s.word_count) = _
  rw [word_count_score_eq, round_natCast]

/-! Machinery for the idempotence of the Cleaner: the output of
`_clean_extracted_text` contains whitespace only as isolated plain blanks,
with non-whitespace characters at both ends, and any such string is a fixed
point of the Cleaner. -/

/-- No two adjacent characters are both whitespace. -/
def SpacedApart (a b : Char) : Prop := ¬(isPySpace a = true ∧ isPySpace b = true)

/-- The first character, when it exists, is not whitespace. -/
def HeadSolid (l : List Char) : Prop :=
  ∀ c rest, l = c :: rest → isPySpace c = false

theorem mem_collapseAux {q : Char → Bool} {r : Char} :
    ∀ (b : Bool) (l : List Char), ∀ c ∈ collapseAux q r b l, c = r ∨ q c = false := by
  intro b l
  induction l generalizing b with
  | nil => intro c hc; simp [collapseAux] at hc
  | cons d rest ih =>
    intro c hc
    by_cases hd : q d
    · cases b with
      | true =>
        simp only [collapseAux, if_pos hd, if_pos rfl] at hc
        exact ih true c hc
      | false =>
        simp only [collapseAux, if_pos hd] at hc
        rcases List.mem_cons.mp hc with h | h
        · exact Or.inl h
        · exact ih true c h
    · simp only [collapseAux, if_neg hd] at hc
      rcases List.mem_cons.mp hc with h | h
      · subst h; exact Or.inr (by simpa using hd)
      · exact ih false c h

theorem head_collapseAux_true {q : Char → Bool} {r : Char} :
    ∀ (l : List Char) (c : Char) (rest : List Char),
      collapseAux q r true l = c :: rest → q c = false := by
  intro l
  induction l with
  | nil => intro c rest h; simp [collapseAux] at h
  | cons d tail ih =>
    intro c rest h
    by_cases hd : q d
    · simp only [collapseAux, if_pos hd, if_pos rfl] at h
      exact ih c rest h
    · simp only [collapseAux, if_neg hd] at h
      injection h with h1 h2
      subst h1
      simpa using hd

theorem chain'_collapseAux {q : Char → Bool} {r : Char} :
    ∀ (b : Bool) (l : List Char),
      List.Chain' (fun a b' => ¬(q a = true ∧ q b' = true)) (collapseAux q r b l) := by
  intro b l
  induction l generalizing b with
  | nil => simp [collapseAux]
  | cons d rest ih =>
    by_cases hd : q d
    · cases b with
      | true =>
        simp only [collapseAux, if_pos hd, if_pos rfl]
        exact ih true
      | false =>
        simp only [collapseAux, if_pos hd, Bool.false_eq_true, if_false]
        rw [List.chain'_cons']
        refine ⟨?_, ih true⟩
        intro y hy
        cases hrest : collapseAux q r true rest with
        | nil => rw [hrest] at hy; simp at hy
        | cons z zs =>
          rw [hrest] at hy
          simp only [List.head?_cons, Option.mem_def, Option.some.injEq] at hy
          subst hy
          intro hcon
          rw [head_collapseAux_true rest z zs hrest] at hcon
          exact Bool.false_ne_true hcon.2
    · simp only [collapseAux, if_neg hd]
      rw [List.chain'_cons']
      refine ⟨?_, ih false⟩
      intro y hy hcon
      exact hd (by simp [hcon.1])

theorem collapseAux_id {q : Char → Bool} {r : Char} :
    ∀ l : List Char, List.Chain' (fun a b' => ¬(q a = true ∧ q b' = true)) l →
      (∀ c ∈ l, q c = true → c = r) → collapseAux q r false l = l := by
  intro l
  induction l with
  | nil => intro _ _; rfl
  | cons d rest ih =>
    intro hchain hblank
    by_cases hd : q d
    · have hdr : d = r := hblank d (by simp) hd
      subst hdr
      simp only [collapseAux, if_pos hd, Bool.false_eq_true, if_false]
      congr 1
      cases rest with
      | nil => rfl
      | cons e tail =>
        have hqe : q e = false := by
          have hrel := (List.chain'_cons.mp hchain).1
          by_contra hne
          exact hrel ⟨hd, by simpa using hne⟩
        have hrest : collapseAux q d false (e :: tail) = e :: tail :=
          ih (List.Chain'.tail hchain)
            (fun c hc hqc => hblank c (List.mem_cons_of_mem d hc) hqc)
        simp only [collapseAux, if_neg (by simp [hqe] : ¬ q e = true)] at hrest ⊢
        exact hrest
    · simp only [collapseAux, if_neg hd]
      congr 1
      exact ih (List.Chain'.tail hchain)
        (fun c hc hqc => hblank c (List.mem_cons_of_mem d hc) hqc)

theorem collapseAux_id_none {q : Char → Bool} {r : Char} :
    ∀ (b : Bool) (l : List Char), (∀ c ∈ l, q c = false) → collapseAux q r b l = l := by
  intro b l
  induction l generalizing b with
  | nil => intro _; rfl
  | cons d rest ih =>
    intro hnone
    have hd : ¬ q d = true := by simp [hnone d (by simp)]
    simp only [collapseAux, if_neg hd]
    congr 1
    exact ih false (fun c hc => hnone c (List.mem_cons_of_mem d hc))

theorem chain'_dropWhile {R : Char → Char → Prop} {q : Char → Bool} :
    ∀ l : List Char, List.Chain' R l → List.Chain' R (l.dropWhile q) := by
  intro l h
  induction l with
  | nil => simp
  | cons d rest ih =>
    by_cases hd : q d
    · rw [List.dropWhile_cons_of_pos hd]
      exact ih (List.Chain'.tail h)
    · rwa [List.dropWhile_cons_of_neg hd]

theorem mem_dropWhile {q : Char → Bool} :
    ∀ (l : List Char) (c : Char), c ∈ l.dropWhile q → c ∈ l := by
  intro l c h
  induction l with
  | nil => simp at h
  | cons d rest ih =>
    by_cases hd : q d
    · rw [List.dropWhile_cons_of_pos hd] at h
      exact List.mem_cons_of_mem d (ih h)
    · rwa [List.dropWhile_cons_of_neg hd] at h

theorem chain'_reverse_of_symm {R : Char → Char → Prop}
    (hs : ∀ a b, R a b → R b a) :
    ∀ l : List Char, List.Chain' R l → List.Chain' R l.reverse := by
  intro l h
  rw [List.chain'_reverse]
  exact List.Chain'.imp (fun a b hab => hs a b hab) h

theorem mem_pyStrip {l : List Char} {c : Char} (h : c ∈ pyStrip l) : c ∈ l := by
  unfold pyStrip at h
  rw [List.mem_reverse] at h
  have h1 := mem_dropWhile _ _ h
  rw [List.mem_reverse] at h1
  exact mem_dropWhile _ _ h1

theorem chain'_pyStrip {R : Char → Char → Prop} (hs : ∀ a b, R a b → R b a)
    {l : List Char} (h : List.Chain' R l) : List.Chain' R (pyStrip l) := by
  unfold pyStrip
  exact chain'_reverse_of_symm hs _ (chain'_dropWhile _
    (chain'_reverse_of_symm hs _ (chain'_dropWhile _ h)))

theorem headSolid_dropWhile (q : Char → Bool) (l : List Char) :
    ∀ c rest, l.dropWhile q = c :: rest → q c = false := by
  intro c rest h
  have := List.head?_dropWhile_not q l
  rw [h] at this
  simpa using this

theorem headSolid_pyStrip (l : List Char) : HeadSolid (pyStrip l) := by
  intro c rest h
  unfold pyStrip at h
  have hsuf : (l.dropWhile isPySpace).reverse.takeWhile isPySpace ++
      (l.dropWhile isPySpace).reverse.dropWhile isPySpace =
      (l.dropWhile isPySpace).reverse :=
    List.takeWhile_append_dropWhile ..
  have hXeq : l.dropWhile isPySpace =
      ((l.dropWhile isPySpace).reverse.dropWhile isPySpace).reverse ++
      ((l.dropWhile isPySpace).reverse.takeWhile isPySpace).reverse := by
    have h2 := congrArg List.reverse hsuf
    rw [List.reverse_append, List.reverse_reverse] at h2
    exact h2.symm
  rw [h, List.cons_append] at hXeq
  exact headSolid_dropWhile isPySpace l c _ hXeq

theorem lastSolid_pyStrip (l : List Char) : HeadSolid (pyStrip l).reverse := by
  intro c rest h
  unfold pyStrip at h
  rw [List.reverse_reverse] at h
  exact headSolid_dropWhile isPySpace _ c rest h

theorem dropWhile_eq_self_of_head {q : Char → Bool} {l : List Char}
    (h : ∀ c rest, l = c :: rest → q c = false) : l.dropWhile q = l := by
  cases l with
  | nil => rfl
  | cons c rest =>
    exact List.dropWhile_cons_of_neg (by simp [h c rest rfl])

theorem pyStrip_eq_self {l : List Char} (hh : HeadSolid l) (hl : HeadSolid l.reverse) :
    pyStrip l = l := by
  unfold pyStrip
  rw [dropWhile_eq_self_of_head hh, dropWhile_eq_self_of_head hl, List.reverse_reverse]

theorem normNewlines_eq_self :
    ∀ l : List Char, (∀ c ∈ l, c ≠ '\r') → normNewlines l = l := by
  intro l h
  induction l with
  | nil => rfl
  | cons d rest ih =>
    have hd : d ≠ '\r' := h d (by simp)
    cases rest with
    | nil => simp [normNewlines, if_neg hd]
    | cons e tail =>
      show normNewlines (d :: e :: tail) = _
      simp only [normNewlines]
      rw [if_neg (by tauto : ¬(d = '\r' ∧ e = '\n')), if_neg hd]
      congr 1
      exact ih (fun c hc => h c (List.mem_cons_of_mem d hc))

theorem splitOnNl_eq_single :
    ∀ l : List Char, (∀ c ∈ l, c ≠ '\n') → splitOnNl l = [l] := by
  intro l h
  induction l with
  | nil => rfl
  | cons d rest ih =>
    have hd : d ≠ '\n' := h d (by simp)
    simp only [splitOnNl, if_neg hd]
    rw [ih (fun c hc => h c (List.mem_cons_of_mem d hc))]

theorem clean_invariants (raw : List Char) :
    (∀ c ∈ _clean_extracted_text raw, isPySpace c = true → c = ' ') ∧
    List.Chain' SpacedApart (_clean_extracted_text raw) ∧
    HeadSolid (_clean_extracted_text raw) ∧
    HeadSolid (_clean_extracted_text raw).reverse := by
  unfold _clean_extracted_text
  by_cases h : raw.isEmpty
  · rw [if_pos h]
    refine ⟨by simp, by simp, ?_, ?_⟩ <;> exact fun c rest hcr => by simp at hcr
  · rw [if_neg h]
    refine ⟨?_, ?_, headSolid_pyStrip _, lastSolid_pyStrip _⟩
    · intro c hc hsp
      have hc2 := mem_pyStrip hc
      rcases mem_collapseAux false _ c hc2 with h1 | h1
      · exact h1
      · rw [h1] at hsp; exact absurd hsp (by simp)
    · refine chain'_pyStrip (fun a b hab ⟨x, y⟩ => hab ⟨y, x⟩) ?_
      exact chain'_collapseAux false _

theorem clean_fix {z : List Char}
    (hblank : ∀ c ∈ z, isPySpace c = true → c = ' ')
    (hchain : List.Chain' SpacedApart z)
    (hhead : HeadSolid z) (hlast : HeadSolid z.reverse) :
    _clean_extracted_text z = z := by
  by_cases hz : z = []
  · subst hz; rfl
  · have hspace : ∀ c ∈ z, isPySpace c = true → c = ' ' := hblank
    have hnoCR : ∀ c ∈ z, c ≠ '\r' := by
      intro c hc heq
      subst heq
      have h1 : isPySpace '\r' = true := by decide
      have h2 := hspace '\r' hc h1
      exact absurd h2 (by decide)
    have hnoNL : ∀ c ∈ z, c ≠ '\n' := by
      intro c hc heq
      subst heq
      have h1 : isPySpace '\n' = true := by decide
      have h2 := hspace '\n' hc h1
      exact absurd h2 (by decide)
    have hstripped : strippedLines z = [z] := by
      unfold strippedLines
      rw [normNewlines_eq_self z hnoCR, splitOnNl_eq_single z hnoNL]
      simp [pyStrip_eq_self hhead hlast]
    have hkept : keptLines z = [z] := by
      unfold keptLines
      rw [hstripped]
      have hcount : List.count z [z] = 1 := by simp
      simp only [List.filter, hcount]
      have hdec : decide (z ≠ [] ∧ ¬(6 ≤ 1 ∧ z.length ≤ 80)) = true := by
        simp [hz]
      rw [hdec]
    unfold _clean_extracted_text
    rw [if_neg (by simpa using hz)]
    rw [hkept]
    have hinter : List.intercalate ['\n'] [z] = z := by
      simp [List.intercalate]
    rw [hinter]
    have hnoTab : ∀ c ∈ z, isTabNbsp c = false := by
      intro c hc
      by_contra hne
      have htb : isTabNbsp c = true := by simpa using hne
      have hnat : c.toNat = 0x9 ∨ c.toNat = 0xa0 := by
        simpa [isTabNbsp, decide_eq_true_iff] using htb
      have hsp : isPySpace c = true := by
        rcases hnat with h9 | h9 <;> simp [isPySpace, h9]
      have := hspace c hc hsp
      subst this
      simp at hnat
    rw [show collapseRuns isTabNbsp ' ' z = z from collapseAux_id_none false z hnoTab]
    rw [show collapseRuns isPySpace ' ' z = z from collapseAux_id z hchain hblank]
    exact pyStrip_eq_self hhead hlast

/-- Copy of a signal record with the bullets flag replaced; used to state
that the returned breakdown ignores the bullets signal. -/
def setBullets (s : Signals) (b : Bool) : Signals :=
  ⟨s.word_count, s.education, s.experience, s.skills, s.projects, b,
   s.keyword_hits, s.action_hits⟩

/-- Text listing every entry of the keyword vocabulary. -/
def all_keywords_text : String :=
  "python java javascript typescript sql react node aws azure gcp docker kubernetes graphql rest data machine learning nlp git pandas numpy django flask"

/-! Claim theorems. -/

/-- C1: for every input text (including empty), `analyze_resume` returns a
total score in [0,100] and a suggestion list of length at most 3. -/
theorem analyze_resume_total_in_range_and_suggestions_capped (text : List Char) :
    0 ≤ (analyze_resume text).1 ∧ (analyze_resume text).1 ≤ 100 ∧
      (analyze_resume text).2.2.length ≤ 3 := by
  refine ⟨le_max_left _ _, max_le (by norm_num) (min_le_left _ _), ?_⟩
  show ((suggestionsFull (signalsOf text)).take 3).length ≤ 3
  rw [List.length_take]
  exact min_le_left _ _

/-- C2: for every input text, the pre-clamp total
`round(keywords_score + structure_score + action_score + word_count_score)`
already lies in [0,100], so the defensive clamp never changes the returned
total. -/
theorem pre_clamp_total_in_range_clamp_noop (text : List Char) :
    (0 ≤ total_pre (signalsOf text) ∧ total_pre (signalsOf text) ≤ 100) ∧
      (analyze_resume text).1 = total_pre (signalsOf text) := by
  refine ⟨⟨total_pre_nonneg _, total_pre_le_hundred _⟩, ?_⟩
  show max 0 (min 100 (total_pre (signalsOf text))) = total_pre (signalsOf text)
  rw [min_eq_right (total_pre_le_hundred _), max_eq_right (total_pre_nonneg _)]

/-- C3 counterexample: on the empty extracted text the returned suggestion
list does NOT include the word-count (length) suggestion — it is generated,
but dropped by the cap to the first three suggestions. -/
theorem empty_text_length_suggestion_dropped :
    length_suggestion ∉ (analyze_resume "".data).2.2 := by
  decide

/-- C3 amended: empty extracted text flows through without error and yields
the low total 0; the word-count suggestion is generated by the suggestion
builder, but the returned (capped) list consists of the keywords suggestion
and the first two structure suggestions only. -/
theorem empty_text_low_score_suggestions :
    (analyze_resume "".data).1 = 0 ∧
    (analyze_resume "".data).2.2 =
      [kw_suggestion, structure_suggestion "Education",
       structure_suggestion "Experience"] ∧
    length_suggestion ∈ suggestionsFull (signalsOf "".data) := by
  refine ⟨?_, by decide, by decide⟩
  show max 0 (min 100 (total_pre (signalsOf "".data))) = 0
  rw [total_pre_eq]
  decide

/-- C4 counterexample: a text containing every entry of the literal keyword
vocabulary (which has 22 entries, not 20) produces `keyword_hits = 22`,
violating the claimed bound `keyword_hits ≤ 20`. -/
theorem keyword_hits_can_exceed_twenty :
    ¬((signalsOf all_keywords_text.data).keyword_hits ≤ 20) := by
  set_option maxRecDepth 20000 in decide

/-- C4 amended: the detector signals satisfy `keyword_hits ≤ 22` (the literal
keyword list has 22 entries) and `action_hits ≤ 20` (the verb list has 20
entries). -/
theorem detector_hit_bounds (text : List Char) :
    (signalsOf text).keyword_hits ≤ 22 ∧ (signalsOf text).action_hits ≤ 20 := by
  constructor
  · calc (signalsOf text).keyword_hits ≤ keywords.length :=
          List.countP_le_length _
      _ = 22 := by decide
  · calc (signalsOf text).action_hits ≤ action_verbs.length :=
          List.countP_le_length _
      _ = 20 := by decide

/-- C5 counterexample: for text beginning with the action verb "led", that
occurrence IS counted (the code pads the normalized text with spaces on both
sides before substring matching), contradicting the claim that it is
missed. -/
theorem verb_at_start_is_counted :
    (signalsOf "led the team".data).action_hits = 1 ∧
      ¬((signalsOf "led the team".data).action_hits = 0) := by
  exact ⟨by decide, by decide⟩

/-- C5 amended: because the normalized text is itself padded with spaces
before matching, a verb at the very start or end of the text is counted; only
occurrences adjacent to punctuation (such as "led.") are missed. -/
theorem verb_boundary_and_punctuation :
    (signalsOf "led the team".data).action_hits = 1 ∧
    (signalsOf "the team led".data).action_hits = 1 ∧
    (signalsOf "led. the team".data).action_hits = 0 := by
  exact ⟨by decide, by decide, by decide⟩

/-- C6: the Cleaner's line filter keeps a stripped line exactly when it is
non-empty and not (frequency ≥ 6 and length ≤ 80): a line appearing at least
6 times with length at most 80 is dropped, any other non-empty line (for
example one appearing only 5 times) is retained. -/
theorem cleaner_keeps_iff_not_frequent_short (raw : List Char) (ln : List Char) :
    ln ∈ keptLines raw ↔
      ln ∈ strippedLines raw ∧ ln ≠ [] ∧
        ¬(6 ≤ (strippedLines raw).count ln ∧ ln.length ≤ 80) := by
  unfold keptLines
  rw [List.mem_filter, decide_eq_true_iff]

/-- C7: the Cleaner is idempotent — cleaning already-cleaned text yields the
same text. -/
theorem cleaner_idempotent (raw : List Char) :
    _clean_extracted_text (_clean_extracted_text raw) = _clean_extracted_text raw := by
  obtain ⟨hb, hc, hh, hl⟩ := clean_invariants raw
  exact clean_fix hb hc hh hl

/-- C8: with all sections present (bullets included), 8 action verbs, 12
keyword hits and word count 500, the scorer yields sub-scores 40/20/16/20,
total 96 (also after the clamp), and an empty suggestion list. -/
theorem all_signals_scenario_score_96 :
    (detailsOf ⟨500, true, true, true, true, true, 12, 8⟩).score_keywords_40 = 40 ∧
    (detailsOf ⟨500, true, true, true, true, true, 12, 8⟩).score_structure_20 = 20 ∧
    (detailsOf ⟨500, true, true, true, true, true, 12, 8⟩).score_action_verbs_20 = 16 ∧
    (detailsOf ⟨500, true, true, true, true, true, 12, 8⟩).score_word_count_20 = 20 ∧
    total_pre ⟨500, true, true, true, true, true, 12, 8⟩ = 96 ∧
    max 0 (min 100 (total_pre ⟨500, true, true, true, true, true, 12, 8⟩)) = 96 ∧
    suggestionsFull ⟨500, true, true, true, true, true, 12, 8⟩ = [] := by
  refine ⟨?_, ?_, ?_, ?_, ?_, ?_, by decide⟩
  · rw [detail_kw_field]; decide
  · rw [detail_structure_field]; decide
  · rw [detail_action_field]; decide
  · rw [detail_wc_field]; decide
  · rw [total_pre_eq]; decide
  · rw [total_pre_eq]; decide

/-- C9: every sub-score is an exact integer of the stated granularity
(keywords a multiple of 4 capped at 40, structure a multiple of 5, action a
multiple of 2 capped at 20, word count in 0, 10 or 20), the rounding applied
to the breakdown fields is a no-op (the rounded field equals the exact
rational sub-score), and the returned total equals the sum of the four
reported sub-score fields. -/
theorem subscores_exact_integers_total_eq_sum (text : List Char) :
    (detailsOf (signalsOf text)).score_keywords_40 =
        4 * min ((signalsOf text).keyword_hits : ℤ) 10 ∧
    (detailsOf (signalsOf text)).score_structure_20 =
        5 * (structureHits (signalsOf text) : ℤ) ∧
    (detailsOf (signalsOf text)).score_action_verbs_20 =
        2 * min ((signalsOf text).action_hits : ℤ) 10 ∧
    ((detailsOf (signalsOf text)).score_word_count_20 = 0 ∨
      (detailsOf (signalsOf text)).score_word_count_20 = 10 ∨
      (detailsOf (signalsOf text)).score_word_count_20 = 20) ∧
    ((detailsOf (signalsOf text)).score_keywords_40 : ℚ) =
        keywords_score (signalsOf text).keyword_hits ∧
    ((detailsOf (signalsOf text)).score_structure_20 : ℚ) =
        structure_score (structureHits (signalsOf text)) ∧
    ((detailsOf (signalsOf text)).score_action_verbs_20 : ℚ) =
        action_score (signalsOf text).action_hits ∧
    ((detailsOf (signalsOf text)).score_word_count_20 : ℚ) =
        word_count_score (signalsOf text).word_count ∧
    (analyze_resume text).1 =
        (detailsOf (signalsOf text)).score_keywords_40 +
        (detailsOf (signalsOf text)).score_structure_20 +
        (detailsOf (signalsOf text)).score_action_verbs_20 +
        (detailsOf (signalsOf text)).score_word_count_20 := by
  refine ⟨?_, ?_, ?_, ?_, ?_, ?_, ?_, ?_, ?_⟩
  · rw [detail_kw_field]; push_cast; ring
  · rw [detail_structure_field]; push_cast; ring
  · rw [detail_action_field]; push_cast; ring
  · rw [detail_wc_field]
    unfold wcNat
    split_ifs <;> norm_num
  · rw [detail_kw_field, keywords_score_eq]; push_cast; ring
  · rw [detail_structure_field, structure_score_eq]; push_cast; ring
  · rw [detail_action_field, action_score_eq]; push_cast; ring
  · rw [detail_wc_field, word_count_score_eq]; push_cast; ring
  · show max 0 (min 100 (total_pre (signalsOf text))) = _
    rw [min_eq_right (total_pre_le_hundred _), max_eq_right (total_pre_nonneg _)]
    rw [total_pre_eq, detail_kw_field, detail_structure_field, detail_action_field,
      detail_wc_field]
    push_cast
    ring

/-- C10: the `sections_present` field of the returned breakdown is the count
(at most 4) of the four structural sections detected, the bullets signal
being excluded, and the whole breakdown record is unchanged by the bullets
signal. -/
theorem sections_present_counts_four_sections :
    (∀ text : List Char,
      (analyze_resume text).2.1.sections_present =
          (if (signalsOf text).education then 1 else 0) +
          (if (signalsOf text).experience then 1 else 0) +
          (if (signalsOf text).skills then 1 else 0) +
          (if (signalsOf text).projects then 1 else 0) ∧
      (analyze_resume text).2.1.sections_present ≤ 4) ∧
    (∀ (s : Signals) (b : Bool), detailsOf (setBullets s b) = detailsOf s) := by
  constructor
  · intro text
    constructor
    · show (detailsOf (signalsOf text)).sections_present = _
      show structureHits (signalsOf text) = _
      rw [structureHits_eq]
    · show structureHits (signalsOf text) ≤ 4
      exact structureHits_le_four _
  · intro s b
    obtain ⟨wc, e, x, k, p, b0, kh, ah⟩ := s
    rfl

end ResumeAnalyzer
